import Mathlib

set_option maxRecDepth 8000

/-!
Verification of the plan-lifecycle controller in `src/file_organizer_agent.py`.

Strings are modelled as `List Char` (the `.data` of a Lean `String`), so that
every Python string operation used by the source (`in`, `split`, `strip`,
`lower`, `startswith`, `join`) becomes a structurally recursive,
kernel-evaluable Lean function.  Filesystem paths are POSIX paths; a path is
canonicalized into its list of components, mirroring `os.path.abspath`
(which is `normpath(join(cwd, p))`: it collapses separators and resolves
`.`/`..` lexically, and does not expand `~` nor resolve symlinks).
-/

/-- Coerces a string literal to the character-list representation used
throughout this development. -/
def str (s : String) : List Char := s.data

/-- Whitespace test matching Python `str.strip`'s default set (ASCII). -/
def isWs (c : Char) : Bool :=
  c = ' ' || c = '\t' || c = '\n' || c = '\r' || c = '\x0b' || c = '\x0c'

/-- Python `str.strip()`: drop leading and trailing whitespace. -/
def stripBoth (l : List Char) : List Char :=
  ((l.dropWhile isWs).reverse.dropWhile isWs).reverse

/-- ASCII lower-casing of one character, as in Python `str.lower` restricted
to ASCII input. -/
def lowerC (c : Char) : Char :=
  if 'A' ≤ c && c ≤ 'Z' then Char.ofNat (c.toNat + 32) else c

/-- Python `str.lower()` (ASCII model). -/
def lowerL (l : List Char) : List Char := l.map lowerC

/-- Python `str.startswith`: the first list is a leading segment of the
second. -/
def isPrefixL : List Char → List Char → Bool
  | [], _ => true
  | _ :: _, [] => false
  | p :: ps, c :: cs => p = c && isPrefixL ps cs

/-- Python `pat in s`: substring containment. -/
def containsSub : List Char → List Char → Bool
  | [], pat => pat.isEmpty
  | c :: cs, pat => isPrefixL pat (c :: cs) || containsSub cs pat

/-- Everything after the first occurrence of `pat`, i.e. Python
`s.split(pat, 1)[1]` when `pat` occurs in `s` (and `[]` when it does not). -/
def afterFirstSub : List Char → List Char → List Char
  | [], _ => []
  | c :: cs, pat =>
    if isPrefixL pat (c :: cs) then (c :: cs).drop pat.length
    else afterFirstSub cs pat

/-- Python `s.split(sep)` for a one-character separator: always returns at
least one (possibly empty) piece. -/
def splitOnChar (sep : Char) : List Char → List (List Char)
  | [] => [[]]
  | c :: cs =>
    match splitOnChar sep cs with
    | [] => [[]]
    | r :: rs => if c = sep then [] :: r :: rs else (c :: r) :: rs

/-! ## Path model (`os.path`, POSIX) -/

/-- Absolute-path test: the path starts with the separator. -/
def isAbsL (s : List Char) : Bool :=
  match s with
  | [] => false
  | c :: _ => c = '/'

/-- Split a path into its non-empty components (collapsing repeated
separators, as `os.path.normpath` does). -/
def splitPathL (s : List Char) : List (List Char) :=
  (splitOnChar '/' s).filter (fun comp => !comp.isEmpty)

/-- Lexical resolution of `.` and `..` over an absolute component list, as
`os.path.normpath` performs for absolute POSIX paths (a leading `..` at the
root is dropped).  `acc` is the reversed stack of components kept so far. -/
def normAbsAux : List (List Char) → List (List Char) → List (List Char)
  | acc, [] => acc.reverse
  | acc, comp :: rest =>
    if comp = ['.'] then normAbsAux acc rest
    else if comp = ['.', '.'] then normAbsAux (acc.drop 1) rest
    else normAbsAux (comp :: acc) rest

/-- `os.path.abspath` at component level: a relative path is interpreted
against the current working directory `cwd` (itself given as components),
then `.`/`..` are resolved lexically.  No `~` expansion, no symlink
resolution. -/
def abspathC (cwd : List (List Char)) (s : List Char) : List (List Char) :=
  normAbsAux [] ((if isAbsL s then [] else cwd) ++ splitPathL s)

/-- `os.path.commonpath` of two absolute POSIX paths at component level: the
longest common leading run of components. -/
def commonpath {α : Type} [DecidableEq α] : List α → List α → List α
  | a :: as, b :: bs => if a = b then a :: commonpath as bs else []
  | _, _ => []

/-- Embedding of `is_path_within_boundary` (src lines 25-35): both arguments
are taken through `os.path.abspath`, then the boundary is compared with
`os.path.commonpath` of the pair.  The Python `try`/`except` arms
(`ValueError` for cross-drive input on Windows, generic exceptions) return
`False`; on POSIX both computed paths are absolute so neither arm can fire,
and the embedded function is total. -/
def is_path_within_boundary (cwd : List (List Char))
    (path_to_check boundary_path : List Char) : Bool :=
  let abs_boundary := abspathC cwd boundary_path
  let abs_check := abspathC cwd path_to_check
  decide (commonpath abs_boundary abs_check = abs_boundary)

/-- `os.path.expanduser` (ASCII model, own home directory only): used by the
callers of `is_path_within_boundary` at src lines 55, 58 and 73, before the
boundary check is invoked. -/
def expanduserL (home s : List Char) : List Char :=
  if s = str "~" then home
  else if isPrefixL (str "~/") s then home ++ s.drop 1
  else s

/-- Modelled from the spec (section 4.1 BoundaryGuard), for comparison with
the source function: the spec words say the check itself "resolves both
paths to absolute, canonicalized form (expanding home-directory shorthand,
resolving `.`/`..`) and returns true iff the canonicalized boundary is a
prefix component-wise of the canonicalized candidate". -/
def is_within_spec (cwd : List (List Char)) (home c b : List Char) : Bool :=
  let bb := abspathC cwd (expanduserL home b)
  let cc := abspathC cwd (expanduserL home c)
  bb.isPrefixOf cc

/-! ## Plan extraction and display grouping (src lines 254-281) -/

/-- The plan marker searched for in the raw proposal (src line 255). -/
def planMarker : List Char := str "PLAN:"

/-- The tool-invocation line marker (src line 256). -/
def toolCallMark : List Char := str "call tool"

/-- The per-line keep-and-strip comprehension of src lines 260 and 262: a
line is kept when its stripped, lower-cased form starts with `call tool`,
and the kept value is the stripped line. -/
def keepToolLines (text : List Char) : List (List Char) :=
  (splitOnChar '\n' text).filterMap (fun line =>
    let t := stripBoth line
    if isPrefixL toolCallMark (lowerL t) then some t else none)

/-- Plan extraction (src lines 254-266): if the response contains `PLAN:`,
scan the stripped text after its first occurrence; otherwise, if the
lower-cased response mentions `call tool` anywhere, scan the whole
response; otherwise no lines are kept. -/
def extractPlanLines (resp : List Char) : List (List Char) :=
  if containsSub resp planMarker then
    keepToolLines (stripBoth (afterFirstSub resp planMarker))
  else if containsSub (lowerL resp) toolCallMark then
    keepToolLines resp
  else []

/-- The review display's grouping of a plan line (src line 275): the line
mentions the `create_directory` tool. -/
def isCreateLine (l : List Char) : Bool := containsSub l (str "create_directory")

/-- The review display's grouping of a plan line (src line 276): the line
mentions the `move_file` tool. -/
def isMoveLine (l : List Char) : Bool := containsSub l (str "move_file")

/-- The three display groups of src lines 271-280. -/
structure Groups where
  creates : List (List Char)
  moves : List (List Char)
  others : List (List Char)
deriving DecidableEq, Repr

/-- The grouping loop of src lines 274-277: each plan line goes to
`creates` when it contains `create_directory`, else to `moves` when it
contains `move_file`, else to `others`; order within a group follows the
plan. -/
def groupLines : List (List Char) → Groups
  | [] => ⟨[], [], []⟩
  | l :: ls =>
    let g := groupLines ls
    if isCreateLine l then ⟨l :: g.creates, g.moves, g.others⟩
    else if isMoveLine l then ⟨g.creates, l :: g.moves, g.others⟩
    else ⟨g.creates, g.moves, l :: g.others⟩

/-- The display splits the stored plan string back into lines
(src line 274). -/
def displayGroups (current_plan : List Char) : Groups :=
  groupLines (splitOnChar '\n' current_plan)

/-! ## Prompts (src lines 230-240, 299-303, 319-323) -/

/-- Session configuration fixed before the loop: the validated working
root (`ALLOWED_BASE_PATH_STR`), the initial listing text, and the optional
operator context (empty when not provided). -/
structure Cfg where
  basePath : List Char
  initialStructure : List Char
  userContext : List Char
deriving DecidableEq, Repr

/-- The proposal prompt of src lines 230-240: the base request, with the
operator context prepended when it is non-empty. -/
def proposalPrompt (cfg : Cfg) : List Char :=
  let base :=
    str "Based on the following file structure within the base directory '"
      ++ cfg.basePath
      ++ str "', propose a logical organization plan. Present the plan as a sequence of tool calls using relative paths.\n\nInitial Structure:\n"
      ++ cfg.initialStructure
  if cfg.userContext.isEmpty then base
  else
    str "User Context for Organization: \"" ++ cfg.userContext ++ str "\"\n\n" ++ base

/-- The execution prompt of src lines 299-303: a fixed header followed by
the plan text verbatim. -/
def executionPrompt (current_plan : List Char) : List Char :=
  str "Execute the following organization plan step-by-step using the available tools. Call the tools exactly as listed.\n\nPlan:\n"
    ++ current_plan

/-- The revision prompt of src lines 319-323, embedding the (lower-cased,
stripped) operator feedback. -/
def revisionPrompt (feedback : List Char) : List Char :=
  str "The user wants to revise the organization plan. Their feedback is: '"
    ++ feedback
    ++ str "'.\nGenerate a *new* organization plan (as a sequence of tool calls) that addresses this feedback. IMPORTANT: If you need to know the current state of the directory, use the 'list_directory' tool *first*."

/-! ## The interactive planning/execution loop (src lines 221-361)

The loop is embedded as a small-step machine.  The state records the loop
variables `current_plan` and `last_response` plus the local
`execution_prompt` (consulted by the rate-limit handler through
`locals()`), and a program counter naming the external call the loop is
blocked on.  A step consumes the result of that call and produces the next
state together with the list of observable effects performed before the
next blocking point. -/

/-- Which external interaction the loop is currently blocked on. -/
inductive PC
  | awaitProposal
  | awaitInput
  | awaitRevision
  | awaitExec
  | finished
deriving DecidableEq, Repr

/-- The loop state: loop variables of src lines 222-223 plus the
`execution_prompt` local (empty before first assignment) and the program
counter. -/
structure St where
  pc : PC
  current_plan : List Char
  last_response : List Char
  execution_prompt : List Char
deriving DecidableEq, Repr

/-- Result of one agent call (`organizer_agent.arun`): either response
text, or a `ModelProviderError` classified by the handler of src lines
336-352 as a rate limit (`429`/`resource_exhausted`) or as any other
provider error. -/
inductive ProposerResult
  | ok (text : List Char)
  | rateLimited
  | providerError
deriving DecidableEq, Repr

/-- An event the environment delivers to the blocked loop. -/
inductive Ev
  | result (r : ProposerResult)
  | input (line : List Char)
deriving DecidableEq, Repr

/-- Observable effects of the loop: outgoing agent calls, the review
display, the cooldown sleep, and the terminal messages. -/
inductive Eff
  | proposerCall (prompt : List Char)
  | displayPlan (g : Groups)
  | noActionableMsg
  | readInput
  | emptyPlanMsg
  | sleepCooldown (seconds : Nat)
  | execCall (prompt : List Char)
  | stopCancelled
  | stopAfterExecution
  | stopProviderError
deriving DecidableEq, Repr

/-- Classification of one line of operator input (src lines 287-293):
the line is lower-cased and stripped, then compared with the approval and
rejection tokens; anything else is revision feedback in that normalized
form. -/
def normalizeInput (u : List Char) : List Char := stripBoth (lowerL u)

/-- The three-way branch of src lines 293, 313 and 316 on the normalized
input. -/
inductive InputKind
  | approve
  | reject
  | feedback (v : List Char)
deriving DecidableEq, Repr

/-- Classify one raw operator input line as the code does. -/
def classifyInput (u : List Char) : InputKind :=
  let v := normalizeInput u
  if v = str "yes" then .approve
  else if v = str "no" then .reject
  else .feedback v

/-- Re-entering the top of the `while True` loop (src line 224): with an
empty plan the proposal branch runs and blocks on the Proposer
(src lines 228-244); with a non-empty plan the extracted plan is displayed
and the loop blocks on operator input (src lines 269-290). -/
def loopTop (cfg : Cfg) (s : St) : St × List Eff :=
  if s.current_plan.isEmpty then
    ({ s with pc := .awaitProposal }, [.proposerCall (proposalPrompt cfg)])
  else
    ({ s with pc := .awaitInput },
      [.displayPlan (displayGroups s.current_plan), .readInput])

/-- Falling through after a proposal response was extracted
(src lines 268-290): display the plan when non-empty, otherwise print the
no-actionable-plan note when a response exists, then block on operator
input. -/
def afterProposal (s : St) : St × List Eff :=
  ({ s with pc := .awaitInput },
    (if !s.current_plan.isEmpty then [.displayPlan (displayGroups s.current_plan)]
     else if !s.last_response.isEmpty then [.noActionableMsg]
     else [])
      ++ [.readInput])

/-- The rate-limit arm of the exception handler (src lines 339-348): sleep
the fixed 65-second cooldown, then reset `current_plan` and
`last_response` unless the string `Executing the plan` occurs in the
`execution_prompt` local, and continue with the top of the loop. -/
def handleRateLimit (cfg : Cfg) (s : St) : St × List Eff :=
  let s' :=
    if containsSub s.execution_prompt (str "Executing the plan") then s
    else { s with current_plan := [], last_response := [] }
  let t := loopTop cfg s'
  (t.1, .sleepCooldown 65 :: t.2)

/-- Delivering the proposal call's outcome (src lines 244-266 and the
handler of src lines 336-352): on text, store it, extract the plan, and
fall through to review; on a rate limit, run the cooldown path; on any
other provider error, exit the loop. -/
def handleProposerResult (cfg : Cfg) (s : St) : ProposerResult → St × List Eff
  | .ok t =>
    afterProposal
      { s with
        last_response := t
        current_plan := List.intercalate (str "\n") (extractPlanLines t) }
  | .rateLimited => handleRateLimit cfg s
  | .providerError => ({ s with pc := .finished }, [.stopProviderError])

/-- Delivering the revision call's outcome (src lines 324-333): on text,
store it and clear the plan so the next loop iteration re-enters the
proposal branch; errors behave as for the proposal call. -/
def handleRevisionResult (cfg : Cfg) (s : St) : ProposerResult → St × List Eff
  | .ok t => loopTop cfg { s with last_response := t, current_plan := [] }
  | .rateLimited => handleRateLimit cfg s
  | .providerError => ({ s with pc := .finished }, [.stopProviderError])

/-- Delivering the execution call's outcome (src lines 304-311 and the
handler): on a result the loop breaks; on a rate limit the cooldown path
runs; on any other provider error the loop exits. -/
def handleExecResult (cfg : Cfg) (s : St) : ProposerResult → St × List Eff
  | .ok _ => ({ s with pc := .finished }, [.stopAfterExecution])
  | .rateLimited => handleRateLimit cfg s
  | .providerError => ({ s with pc := .finished }, [.stopProviderError])

/-- One step of the loop: consume the event the loop was blocked on and
run to the next blocking point.  The `awaitInput` arm is the operator
branch of src lines 287-333: approval with an empty plan prints a note and
re-enters the loop top; approval with a plan records the execution prompt
and dispatches it; rejection exits; anything else dispatches the revision
prompt built from the normalized feedback. -/
def step (cfg : Cfg) (s : St) (ev : Ev) : St × List Eff :=
  match s.pc, ev with
  | .awaitProposal, .result r => handleProposerResult cfg s r
  | .awaitRevision, .result r => handleRevisionResult cfg s r
  | .awaitExec, .result r => handleExecResult cfg s r
  | .awaitInput, .input u =>
    match classifyInput u with
    | .approve =>
      if s.current_plan.isEmpty then
        let t := loopTop cfg s
        (t.1, .emptyPlanMsg :: t.2)
      else
        let ep := executionPrompt s.current_plan
        ({ s with pc := .awaitExec, execution_prompt := ep }, [.execCall ep])
    | .reject => ({ s with pc := .finished }, [.stopCancelled])
    | .feedback v =>
      ({ s with pc := .awaitRevision }, [.proposerCall (revisionPrompt v)])
  | _, _ => (s, [])

/-- Run the machine over a list of events, concatenating effects. -/
def runTrace (cfg : Cfg) : St → List Ev → St × List Eff
  | s, [] => (s, [])
  | s, e :: es =>
    let t := step cfg s e
    let t' := runTrace cfg t.1 es
    (t'.1, t.2 ++ t'.2)

/-- The directory-selection gate of src lines 71-82 (and 57-67 for the
configured default): a candidate is accepted iff it is a directory (an
external fact, passed in as a boolean) and `is_path_within_boundary`
holds of the resolved candidate against the resolved top-level path. -/
def directorySelectionOk (cwd : List (List Char)) (isDir : Bool)
    (resolvedUser resolvedTop : List Char) : Bool :=
  isDir && is_path_within_boundary cwd resolvedUser resolvedTop

/-! ## Concrete exemplar data used by the concrete theorems below -/

/-- A well-formed `move_file` invocation line, as produced by the format of
the agent instructions (src lines 150-164). -/
def mvLine : List Char :=
  str "call tool 'move_file' with args \x7b'source': 'a.jpg', 'destination': 'Images/a.jpg'\x7d"

/-- A well-formed `create_directory` invocation line. -/
def crLine : List Char :=
  str "call tool 'create_directory' with args \x7b'path': 'Images'\x7d"

/-- The fixed header line of the execution prompt. -/
def hdrLine : List Char :=
  str "Execute the following organization plan step-by-step using the available tools. Call the tools exactly as listed."

/-- A proposal whose plan lists a move before a create. -/
def interleavedResp : List Char :=
  str "PLAN:\ncall tool 'move_file' with args \x7b'source': 'a.jpg', 'destination': 'Images/a.jpg'\x7d\ncall tool 'create_directory' with args \x7b'path': 'Images'\x7d"

/-- The stored plan string extracted from `interleavedResp`
(src line 264 joins the kept lines with a newline). -/
def interleavedPlan : List Char := List.intercalate (str "\n") [mvLine, crLine]

/-- A concrete session configuration. -/
def cfg0 : Cfg := ⟨str "/home/user/target", str "a.jpg\nstatement.pdf", []⟩

/-- A proposal containing a single `create_directory` invocation. -/
def planResp : List Char :=
  str "PLAN:\ncall tool 'create_directory' with args \x7b'path': 'Images'\x7d"

/-- A kept tool-invocation line whose argument payload is not parseable. -/
def badLine : List Char := str "call tool 'create_directory' with args ???"

/-- A proposal whose only kept line carries an unparsable payload. -/
def badPayloadResp : List Char := str "PLAN:\ncall tool 'create_directory' with args ???"

/-- A proposal with a tool-invocation line but no `PLAN:` marker. -/
def markerlessResp : List Char :=
  str "call tool 'create_directory' with args \x7b'path': 'X'\x7d"

/-- A tool-invocation line whose source path is absolute and escapes any
home-rooted boundary. -/
def escapeLine : List Char :=
  str "call tool 'move_file' with args \x7b'source': '/etc/passwd', 'destination': 'stolen.txt'\x7d"

/-- A session in which the operator approves, the execution call is
rate-limited, a fresh proposal arrives, and the operator then rejects. -/
def c8events : List Ev :=
  [.result (.ok planResp), .input (str "yes"), .result .rateLimited,
   .result (.ok planResp), .input (str "no")]

/-- A proposal with a create followed by a move. -/
def twoActionResp : List Char :=
  str "PLAN:\ncall tool 'create_directory' with args \x7b'path': 'Images'\x7d\ncall tool 'move_file' with args \x7b'source': 'a.jpg', 'destination': 'Images/a.jpg'\x7d"

/-- The stored plan string extracted from `twoActionResp`. -/
def twoActionPlan : List Char := List.intercalate (str "\n") [crLine, mvLine]

/-! ## Helper lemmas -/

/-- `commonpath a b` returns `a` itself exactly when the components `a` are
a leading segment of the components `b`. -/
theorem commonpath_self_iff {α : Type} [DecidableEq α] :
    ∀ (a b : List α), commonpath a b = a ↔ ∃ t, b = a ++ t := by
  intro a
  induction a with
  | nil =>
    intro b
    simp [commonpath]
  | cons x xs ih =>
    intro b
    cases b with
    | nil =>
      simp [commonpath]
    | cons y ys =>
      by_cases hxy : x = y
      · subst hxy
        simp only [commonpath, if_pos rfl]
        constructor
        · intro h
          have h' : commonpath xs ys = xs := by
            injection h
          rcases (ih ys).mp h' with ⟨t, ht⟩
          exact ⟨t, by simp [ht]⟩
        · rintro ⟨t, ht⟩
          have hys : ys = xs ++ t := by
            injection ht
          have := (ih ys).mpr ⟨t, hys⟩
          simp [this]
      · simp only [commonpath, if_neg hxy]
        constructor
        · intro h
          exact absurd h.symm (by simp)
        · rintro ⟨t, ht⟩
          simp only [List.cons_append, List.cons.injEq] at ht
          exact (hxy ht.1.symm).elim

/-- The display groups are exactly the order-preserving filters of the plan
lines by the two substring tests. -/
theorem groupLines_spec : ∀ lines : List (List Char),
    (groupLines lines).creates = lines.filter isCreateLine
    ∧ (groupLines lines).moves = lines.filter (fun l => !isCreateLine l && isMoveLine l)
    ∧ (groupLines lines).others = lines.filter (fun l => !isCreateLine l && !isMoveLine l) := by
  intro lines
  induction lines with
  | nil => simp [groupLines]
  | cons l ls ih =>
    by_cases h1 : isCreateLine l
    · simp [groupLines, h1, List.filter, ih.1, ih.2.1, ih.2.2]
    · by_cases h2 : isMoveLine l
      · simp [groupLines, h1, h2, List.filter, ih.1, ih.2.1, ih.2.2]
      · simp [groupLines, h1, h2, List.filter, ih.1, ih.2.1, ih.2.2]

/-- Grouping loses no line and invents none. -/
theorem groupLines_length : ∀ lines : List (List Char),
    (groupLines lines).creates.length + (groupLines lines).moves.length
      + (groupLines lines).others.length = lines.length := by
  intro lines
  induction lines with
  | nil => simp [groupLines]
  | cons l ls ih =>
    by_cases h1 : isCreateLine l
    · simp [groupLines, h1]; omega
    · by_cases h2 : isMoveLine l
      · simp [groupLines, h1, h2]; omega
      · simp [groupLines, h1, h2]; omega

/-- The lexical normalizer never emits a `.` or `..` component it did not
already hold in its accumulator. -/
theorem normAbsAux_no_special (x : List Char) (hx : x = ['.'] ∨ x = ['.', '.']) :
    ∀ (l acc : List (List Char)), x ∉ acc → x ∉ normAbsAux acc l := by
  intro l
  induction l with
  | nil =>
    intro acc hacc
    simpa [normAbsAux, List.mem_reverse] using hacc
  | cons c cs ih =>
    intro acc hacc
    by_cases h1 : c = ['.']
    · simpa [normAbsAux, h1] using ih acc hacc
    · by_cases h2 : c = ['.', '.']
      · have hdrop : x ∉ acc.drop 1 := fun hm => hacc (List.drop_subset 1 acc hm)
        simpa [normAbsAux, h1, h2] using ih (acc.drop 1) hdrop
      · have hcons : x ∉ c :: acc := by
          intro hm
          rcases List.mem_cons.mp hm with hxc | hxa
          · rcases hx with h | h
            · exact h1 (hxc ▸ h)
            · exact h2 (hxc ▸ h)
          · exact hacc hxa
        simpa [normAbsAux, h1, h2] using ih (c :: acc) hcons

/-- `os.path.abspath`'s output carries no unresolved `.` or `..`
component. -/
theorem abspathC_no_dot (cwd : List (List Char)) (s : List Char) :
    ['.'] ∉ abspathC cwd s ∧ ['.', '.'] ∉ abspathC cwd s := by
  constructor
  · exact normAbsAux_no_special ['.'] (Or.inl rfl) _ [] (by simp)
  · exact normAbsAux_no_special ['.', '.'] (Or.inr rfl) _ [] (by simp)

/-- Re-entering the loop top never dispatches an execution call. -/
theorem loopTop_no_exec (cfg : Cfg) (s : St) :
    ∀ p, Eff.execCall p ∉ (loopTop cfg s).2 := by
  intro p
  by_cases h : s.current_plan.isEmpty <;> simp [loopTop, h]

/-- Falling through to review after a proposal never dispatches an
execution call. -/
theorem afterProposal_no_exec (s : St) :
    ∀ p, Eff.execCall p ∉ (afterProposal s).2 := by
  intro p
  by_cases h1 : s.current_plan.isEmpty
  · by_cases h2 : s.last_response.isEmpty <;> simp [afterProposal, h1, h2]
  · simp [afterProposal, h1]

/-- The rate-limit cooldown path never dispatches an execution call. -/
theorem handleRateLimit_no_exec (cfg : Cfg) (s : St) :
    ∀ p, Eff.execCall p ∉ (handleRateLimit cfg s).2 := by
  intro p
  simp only [handleRateLimit, List.mem_cons]
  rintro (h | h)
  · exact Eff.noConfusion h
  · exact loopTop_no_exec cfg _ p h

/-- A step whose event is not an approval emits no execution call: the
`yes`-with-plan branch of src lines 293-311 is the only dispatch site. -/
theorem step_no_exec (cfg : Cfg) (s : St) (ev : Ev)
    (h : ∀ u, ev = .input u → classifyInput u ≠ .approve) :
    ∀ p, Eff.execCall p ∉ (step cfg s ev).2 := by
  intro p
  obtain ⟨pc, cp, lr, ep⟩ := s
  cases pc <;> cases ev <;> rename_i arg
  case awaitProposal.result =>
    cases arg with
    | ok t => exact afterProposal_no_exec _ p
    | rateLimited => exact handleRateLimit_no_exec cfg _ p
    | providerError => simp [step, handleProposerResult]
  case awaitProposal.input => simp [step]
  case awaitInput.result => simp [step]
  case awaitInput.input =>
    cases hc : classifyInput arg with
    | approve => exact absurd hc (h arg rfl)
    | reject => simp [step, hc]
    | feedback v => simp [step, hc]
  case awaitRevision.result =>
    cases arg with
    | ok t => exact loopTop_no_exec cfg _ p
    | rateLimited => exact handleRateLimit_no_exec cfg _ p
    | providerError => simp [step, handleRevisionResult]
  case awaitRevision.input => simp [step]
  case awaitExec.result =>
    cases arg with
    | ok t => simp [step, handleExecResult]
    | rateLimited => exact handleRateLimit_no_exec cfg _ p
    | providerError => simp [step, handleExecResult]
  case awaitExec.input => simp [step]
  case finished.result => simp [step]
  case finished.input => simp [step]

/-- Over a whole session trace containing no approval input, no execution
call is ever dispatched. -/
theorem runTrace_no_exec (cfg : Cfg) : ∀ (evs : List Ev) (s : St),
    (∀ u, Ev.input u ∈ evs → classifyInput u ≠ .approve) →
    ∀ p, Eff.execCall p ∉ (runTrace cfg s evs).2 := by
  intro evs
  induction evs with
  | nil =>
    intro s _ p
    simp [runTrace]
  | cons e es ih =>
    intro s h p
    simp only [runTrace, List.mem_append]
    rintro (hm | hm)
    · exact step_no_exec cfg s e
        (fun u hu => h u (by rw [← hu]; exact List.mem_cons_self e es)) p hm
    · exact ih (step cfg s e).1 (fun u hu => h u (List.mem_cons_of_mem e hu)) p hm

/-- The approval transition with a non-empty plan: record the execution
prompt and dispatch it. -/
theorem step_approve (cfg : Cfg) (s : St) (u : List Char)
    (hpc : s.pc = .awaitInput) (hc : classifyInput u = .approve)
    (hp : ¬ s.current_plan.isEmpty) :
    step cfg s (.input u)
      = ({ s with
            pc := .awaitExec
            execution_prompt := executionPrompt s.current_plan },
         [.execCall (executionPrompt s.current_plan)]) := by
  obtain ⟨pc, cp, lr, ep⟩ := s
  simp only at hpc hp
  subst hpc
  simp [step, hc, hp]

/-- The rejection transition: exit immediately, dispatching nothing. -/
theorem step_reject (cfg : Cfg) (s : St) (u : List Char)
    (hpc : s.pc = .awaitInput) (hc : classifyInput u = .reject) :
    step cfg s (.input u) = ({ s with pc := .finished }, [.stopCancelled]) := by
  obtain ⟨pc, cp, lr, ep⟩ := s
  simp only at hpc
  subst hpc
  simp [step, hc]

/-- The feedback transition: dispatch the revision prompt built from the
normalized feedback. -/
theorem step_feedback (cfg : Cfg) (s : St) (u v : List Char)
    (hpc : s.pc = .awaitInput) (hc : classifyInput u = .feedback v) :
    step cfg s (.input u)
      = ({ s with pc := .awaitRevision }, [.proposerCall (revisionPrompt v)]) := by
  obtain ⟨pc, cp, lr, ep⟩ := s
  simp only at hpc
  subst hpc
  simp [step, hc]

/-- Approval is recognized exactly on the normalized token `yes`. -/
theorem classifyInput_approve_iff (u : List Char) :
    classifyInput u = .approve ↔ normalizeInput u = str "yes" := by
  unfold classifyInput
  by_cases h1 : normalizeInput u = str "yes"
  · simp [h1]
  · by_cases h2 : normalizeInput u = str "no" <;> simp [h1, h2]

/-- Rejection is recognized exactly on the normalized token `no`. -/
theorem classifyInput_reject_iff (u : List Char) :
    classifyInput u = .reject ↔ normalizeInput u = str "no" := by
  unfold classifyInput
  by_cases h1 : normalizeInput u = str "yes"
  · constructor
    · intro h
      simp [h1] at h
    · intro h
      rw [h1] at h
      exact absurd h (by decide)
  · by_cases h2 : normalizeInput u = str "no"
    · simp [h1, h2]
      decide
    · simp [h1, h2]

/-- Feedback carries exactly the normalized input. -/
theorem classifyInput_feedback_eq (u v : List Char)
    (h : classifyInput u = .feedback v) : v = normalizeInput u := by
  unfold classifyInput at h
  by_cases h1 : normalizeInput u = str "yes"
  · simp [h1] at h
  · by_cases h2 : normalizeInput u = str "no"
    · rw [h2] at h
      simp only [if_neg (by decide : ¬ str "no" = str "yes")] at h
      exact absurd h (by simp)
    · simp [h1, h2] at h
      exact h.symm

/-! ## Claim theorems -/

/-- Claim C1, counterexample.  The claim says the executor dispatches every
CreateDirectory before any MoveEntry for arbitrarily interleaved plans.  In
the source the creates-before-moves grouping exists only in the review
display (src lines 269-281); execution (src lines 293-311) embeds the plan
text verbatim in one prompt, so for a plan extracted with a move line ahead
of a create line the dispatched sequence lists the move first. -/
theorem c1_counterexample :
    extractPlanLines interleavedResp = [mvLine, crLine]
    ∧ isMoveLine mvLine = true ∧ isCreateLine crLine = true
    ∧ step cfg0 ⟨.awaitInput, interleavedPlan, interleavedResp, []⟩ (.input (str "yes"))
        = (⟨.awaitExec, interleavedPlan, interleavedResp, executionPrompt interleavedPlan⟩,
           [.execCall (executionPrompt interleavedPlan)])
    ∧ splitOnChar '\n' (executionPrompt interleavedPlan)
        = [hdrLine, [], str "Plan:", mvLine, crLine] := by
  refine ⟨by decide, by decide, by decide, by decide, by decide⟩

/-- Claim C1, amended.  On approval the executor dispatches the plan text
verbatim — the execution prompt is the fixed header followed by the plan's
actions in their original extracted order, with no reordering; only the
review display groups CreateDirectory lines before MoveEntry lines, each
group preserving the plan's relative order (it is the order-preserving
filter of the plan lines). -/
theorem c1_dispatch_order (cfg : Cfg) (s : St) (u : List Char)
    (hpc : s.pc = .awaitInput) (hc : classifyInput u = .approve)
    (hp : ¬ s.current_plan.isEmpty) :
    (step cfg s (.input u)).2
      = [.execCall (str "Execute the following organization plan step-by-step using the available tools. Call the tools exactly as listed.\n\nPlan:\n"
          ++ s.current_plan)]
    ∧ ∀ lines : List (List Char),
        (groupLines lines).creates = lines.filter isCreateLine
        ∧ (groupLines lines).moves = lines.filter (fun l => !isCreateLine l && isMoveLine l) := by
  constructor
  · rw [step_approve cfg s u hpc hc hp]
    rfl
  · intro lines
    exact ⟨(groupLines_spec lines).1, (groupLines_spec lines).2.1⟩

/-- Claim C1, witness for `c1_dispatch_order` at a concrete approval. -/
theorem c1_dispatch_order_witness :
    (step cfg0 ⟨.awaitInput, interleavedPlan, interleavedResp, []⟩ (.input (str "YES "))).2
      = [.execCall (str "Execute the following organization plan step-by-step using the available tools. Call the tools exactly as listed.\n\nPlan:\n"
          ++ interleavedPlan)]
    ∧ (groupLines [mvLine, crLine]).creates = [mvLine, crLine].filter isCreateLine := by
  have h := c1_dispatch_order cfg0 ⟨.awaitInput, interleavedPlan, interleavedResp, []⟩
    (str "YES ") rfl (by decide) (by decide)
  exact ⟨h.1, (h.2 [mvLine, crLine]).1⟩

/-- Claim C2, counterexample.  The claim says every action's path arguments
are re-validated with the boundary check before dispatch, and an escaping
action is not dispatched.  In the source the approval branch performs no
path validation: a plan whose move source is the absolute, boundary-escaping
`/etc/passwd` is dispatched verbatim, even though `is_path_within_boundary`
rejects that path against the session boundary. -/
theorem c2_counterexample :
    is_path_within_boundary [] (str "/etc/passwd") (str "/home/user/target") = false
    ∧ step cfg0 ⟨.awaitInput, escapeLine, escapeLine, []⟩ (.input (str "yes"))
        = (⟨.awaitExec, escapeLine, escapeLine, executionPrompt escapeLine⟩,
           [.execCall (executionPrompt escapeLine)])
    ∧ containsSub (executionPrompt escapeLine) (str "/etc/passwd") = true := by
  refine ⟨by decide, by decide, by decide⟩

/-- Claim C2, amended.  `is_path_within_boundary` is consulted only when the
working directory is selected (a candidate failing the check is rejected
there); at execution time the controller performs no per-action path
validation — approval dispatches the plan text unconditionally, containment
being delegated to the external filesystem server launched rooted at the
boundary. -/
theorem c2_execution_unvalidated (cfg : Cfg) (s : St) (u : List Char)
    (hpc : s.pc = .awaitInput) (hc : classifyInput u = .approve)
    (hp : ¬ s.current_plan.isEmpty) :
    step cfg s (.input u)
      = ({ s with
            pc := .awaitExec
            execution_prompt := executionPrompt s.current_plan },
         [.execCall (executionPrompt s.current_plan)])
    ∧ ∀ (cwd : List (List Char)) (d : Bool) (ru rt : List Char),
        is_path_within_boundary cwd ru rt = false →
        directorySelectionOk cwd d ru rt = false := by
  refine ⟨step_approve cfg s u hpc hc hp, ?_⟩
  intro cwd d ru rt h
  simp [directorySelectionOk, h]

/-- Claim C2, witness for `c2_execution_unvalidated` at a concrete
approval and a concrete out-of-boundary selection candidate. -/
theorem c2_execution_unvalidated_witness :
    step cfg0 ⟨.awaitInput, escapeLine, escapeLine, []⟩ (.input (str "yes"))
      = (⟨.awaitExec, escapeLine, escapeLine, executionPrompt escapeLine⟩,
         [.execCall (executionPrompt escapeLine)])
    ∧ directorySelectionOk [] true (str "/etc") (str "/home/user/target") = false := by
  have h := c2_execution_unvalidated cfg0 ⟨.awaitInput, escapeLine, escapeLine, []⟩
    (str "yes") rfl (by decide) (by decide)
  exact ⟨h.1, h.2 [] true (str "/etc") (str "/home/user/target") (by decide)⟩

/-- Claim C3: `is_path_within_boundary` returns true exactly when the
canonicalized boundary is component-wise a leading segment of the
canonicalized candidate (equal paths included, since the segment may be
empty); siblings, ancestors and unrelated roots therefore yield false, and
the embedded function is total, mirroring the source's catch-all `except`
arms that turn the only possible exceptions into `False`. -/
theorem c3_boundary_containment (cwd : List (List Char)) (c b : List Char) :
    is_path_within_boundary cwd c b = true
      ↔ ∃ t, abspathC cwd c = abspathC cwd b ++ t := by
  unfold is_path_within_boundary
  simp only [decide_eq_true_eq]
  exact commonpath_self_iff _ _

/-- Claim C4, counterexample.  The claim says the function itself expands
the home shorthand `~`.  It does not: `os.path.abspath` leaves `~` as an
ordinary component, so from working directory `/tmp` the candidate
`~/docs` is judged outside the boundary `/home/user`, while the
spec-worded check (which expands `~` itself) accepts it. -/
theorem c4_counterexample :
    is_path_within_boundary [str "tmp"] (str "~/docs") (str "/home/user") = false
    ∧ is_within_spec [str "tmp"] (str "/home/user") (str "~/docs") (str "/home/user") = true := by
  refine ⟨by decide, by decide⟩

/-- Claim C4, amended.  `is_path_within_boundary` resolves both arguments
to absolute canonical form before comparing: the result never contains a
`.` or `..` component, relative paths are absolutized against the current
working directory and absolute ones ignore it; but `~` is not expanded —
it stays a literal component (the callers expand it beforehand). -/
theorem c4_canonicalization :
    (∀ (cwd : List (List Char)) (s : List Char),
        ['.'] ∉ abspathC cwd s ∧ ['.', '.'] ∉ abspathC cwd s)
    ∧ (∀ (cwd : List (List Char)) (s : List Char), isAbsL s = false →
        abspathC cwd s = normAbsAux [] (cwd ++ splitPathL s))
    ∧ (∀ (cwd : List (List Char)) (s : List Char), isAbsL s = true →
        abspathC cwd s = normAbsAux [] (splitPathL s))
    ∧ abspathC [str "tmp"] (str "~/docs") = [str "tmp", str "~", str "docs"]
    ∧ is_path_within_boundary [str "tmp"] (str "~/docs") (str "/home/user") = false := by
  refine ⟨abspathC_no_dot, ?_, ?_, by decide, by decide⟩
  · intro cwd s h
    simp [abspathC, h]
  · intro cwd s h
    simp [abspathC, h]

/-- Claim C4, witness for `c4_canonicalization` at a concrete relative
path containing `.` and `..`. -/
theorem c4_canonicalization_witness :
    abspathC [str "x"] (str "a/./b/../c")
      = normAbsAux [] ([str "x"] ++ splitPathL (str "a/./b/../c")) :=
  c4_canonicalization.2.1 [str "x"] (str "a/./b/../c") (by decide)

/-- Claim C5, counterexample.  The claim says a kept line with an
unparsable argument payload becomes an `Other` action, and that a
marker-less proposal yields an empty Plan.  Neither holds: payloads are
never parsed, so a kept `create_directory` line with payload `???` is
typed as a create (zero `Other` actions); and a marker-less proposal whose
text contains `call tool` lines yields those lines, not an empty Plan. -/
theorem c5_counterexample :
    extractPlanLines badPayloadResp = [badLine]
    ∧ groupLines [badLine] = ⟨[badLine], [], []⟩
    ∧ extractPlanLines markerlessResp = [markerlessResp] := by
  refine ⟨by decide, by decide, by decide⟩

/-- Claim C5, amended.  Extraction keeps exactly the lines whose stripped
form starts (case-insensitively) with `call tool`, taken after the first
`PLAN:` marker when one occurs, else from the whole text when it mentions
`call tool`; kept lines are classified purely by substring — `creates`,
`moves` and `others` are the order-preserving filters by the
`create_directory` / `move_file` tests, partitioning the kept lines — so a
recognized tool name with a malformed payload is still typed; an empty
proposal, or one with neither marker nor `call tool` mention, yields an
empty Plan rather than an error. -/
theorem c5_extraction_tolerance :
    (∀ lines : List (List Char),
        (groupLines lines).creates = lines.filter isCreateLine
        ∧ (groupLines lines).moves = lines.filter (fun l => !isCreateLine l && isMoveLine l)
        ∧ (groupLines lines).others = lines.filter (fun l => !isCreateLine l && !isMoveLine l)
        ∧ (groupLines lines).creates.length + (groupLines lines).moves.length
            + (groupLines lines).others.length = lines.length)
    ∧ extractPlanLines [] = []
    ∧ (∀ resp : List Char, containsSub resp planMarker = false →
        containsSub (lowerL resp) toolCallMark = false → extractPlanLines resp = []) := by
  refine ⟨?_, by decide, ?_⟩
  · intro lines
    exact ⟨(groupLines_spec lines).1, (groupLines_spec lines).2.1,
      (groupLines_spec lines).2.2, groupLines_length lines⟩
  · intro resp h1 h2
    simp [extractPlanLines, h1, h2]

/-- Claim C5, witness for `c5_extraction_tolerance` at a concrete
marker-less, invocation-free proposal. -/
theorem c5_extraction_tolerance_witness :
    extractPlanLines (str "nothing actionable in this text") = [] :=
  c5_extraction_tolerance.2.2 (str "nothing actionable in this text")
    (by decide) (by decide)

/-- Claim C6, counterexample.  The claim says that when the k-th action
fails, no action after k is ever dispatched and the report holds the
successful prefix.  The source hands the entire plan to the executing
agent in one prompt before any outcome can be observed — for a two-action
plan the move line is part of the single dispatched call even if the
create fails — and the single opaque result ends the loop with no
per-action completed/failed report. -/
theorem c6_counterexample :
    extractPlanLines twoActionResp = [crLine, mvLine]
    ∧ step cfg0 ⟨.awaitInput, twoActionPlan, twoActionResp, []⟩ (.input (str "yes"))
        = (⟨.awaitExec, twoActionPlan, twoActionResp, executionPrompt twoActionPlan⟩,
           [.execCall (executionPrompt twoActionPlan)])
    ∧ splitOnChar '\n' (executionPrompt twoActionPlan)
        = [hdrLine, [], str "Plan:", crLine, mvLine]
    ∧ step cfg0 ⟨.awaitExec, twoActionPlan, twoActionResp, executionPrompt twoActionPlan⟩
        (.result (.ok (str "Error: could not create Images")))
        = (⟨.finished, twoActionPlan, twoActionResp, executionPrompt twoActionPlan⟩,
           [.stopAfterExecution]) := by
  refine ⟨by decide, by decide, by decide, by decide⟩

/-- Claim C6, amended.  On approval the controller performs exactly one
dispatch carrying the whole plan; the dispatched content is a pure function
of the plan and therefore cannot depend on any action's outcome, and upon
the single textual result the loop terminates, producing no per-action
report — step-by-step fail-fast is delegated to the external agent's
instructions. -/
theorem c6_single_dispatch (cfg : Cfg) (s : St) (u : List Char)
    (hpc : s.pc = .awaitInput) (hc : classifyInput u = .approve)
    (hp : ¬ s.current_plan.isEmpty) :
    (step cfg s (.input u)).2 = [.execCall (executionPrompt s.current_plan)]
    ∧ (step cfg s (.input u)).1.pc = .awaitExec
    ∧ ∀ t, step cfg (step cfg s (.input u)).1 (.result (.ok t))
        = ({ (step cfg s (.input u)).1 with pc := .finished }, [.stopAfterExecution]) := by
  rw [step_approve cfg s u hpc hc hp]
  exact ⟨rfl, rfl, fun t => rfl⟩

/-- Claim C6, witness for `c6_single_dispatch` at a concrete two-action
plan. -/
theorem c6_single_dispatch_witness :
    (step cfg0 ⟨.awaitInput, twoActionPlan, twoActionResp, []⟩ (.input (str "yes"))).2
      = [.execCall (executionPrompt twoActionPlan)]
    ∧ step cfg0 ⟨.awaitExec, twoActionPlan, twoActionResp, executionPrompt twoActionPlan⟩
        (.result (.ok (str "done")))
        = (⟨.finished, twoActionPlan, twoActionResp, executionPrompt twoActionPlan⟩,
           [.stopAfterExecution]) := by
  have h := c6_single_dispatch cfg0 ⟨.awaitInput, twoActionPlan, twoActionResp, []⟩
    (str "yes") rfl (by decide) (by decide)
  exact ⟨h.1, h.2.2 (str "done")⟩

/-- Claim C7: evaluation of the code at the failing input.  The claim (and
the source's own comment "Don't reset current_plan if execution failed,
allow user to retry" plus its "You can retry the last action" message) says
a rate limit leads to a cooldown and then a return of control to the
operator.  The guard string `Executing the plan` never occurs in the
execution prompt (which begins `Execute the following organization plan`),
so the handler always clears the plan, and the next loop iteration
re-invokes the Proposer immediately — the effects following the
65-second sleep are a Proposer call, not an operator prompt, both for an
execution-time and a proposal-time rate limit. -/
theorem c7_rate_limit_auto_retry :
    containsSub (executionPrompt crLine) (str "Executing the plan") = false
    ∧ step cfg0 ⟨.awaitExec, crLine, planResp, executionPrompt crLine⟩ (.result .rateLimited)
        = (⟨.awaitProposal, [], [], executionPrompt crLine⟩,
           [.sleepCooldown 65, .proposerCall (proposalPrompt cfg0)])
    ∧ step cfg0 ⟨.awaitProposal, [], [], []⟩ (.result .rateLimited)
        = (⟨.awaitProposal, [], [], []⟩,
           [.sleepCooldown 65, .proposerCall (proposalPrompt cfg0)]) := by
  refine ⟨by decide, by decide, by decide⟩

/-- Claim C8, counterexample.  The claim says a session the operator ends
with the rejection token leaves the subtree untouched.  In the session
`c8events` the operator approves, the execution call is rate-limited (the
plan is cleared and a fresh proposal fetched), and the operator then
rejects — the trace ends cancelled, yet an execution dispatch carrying the
plan occurred earlier in the same session. -/
theorem c8_counterexample :
    (runTrace cfg0 ⟨.awaitProposal, [], [], []⟩ c8events).1.pc = .finished
    ∧ Eff.stopCancelled ∈ (runTrace cfg0 ⟨.awaitProposal, [], [], []⟩ c8events).2
    ∧ Eff.execCall (executionPrompt crLine)
        ∈ (runTrace cfg0 ⟨.awaitProposal, [], [], []⟩ c8events).2 := by
  refine ⟨by decide, by decide, by decide⟩

/-- Claim C8, amended.  In every session in which no operator input
normalizes to the approval token, no execution call is ever dispatched —
the approval branch is the machine's only dispatch site — and the
rejection token itself terminates the loop immediately with only the
cancellation message, dispatching nothing. -/
theorem c8_reject_no_dispatch (cfg : Cfg) (evs : List Ev) (s s' : St)
    (hno : ∀ u, Ev.input u ∈ evs → classifyInput u ≠ .approve)
    (hpc : s'.pc = .awaitInput) :
    (∀ p, Eff.execCall p ∉ (runTrace cfg s evs).2)
    ∧ step cfg s' (.input (str "no")) = ({ s' with pc := .finished }, [.stopCancelled]) :=
  ⟨fun p => runTrace_no_exec cfg evs s hno p,
   step_reject cfg s' (str "no") hpc (by decide)⟩

/-- Claim C8, witness for `c8_reject_no_dispatch` on a concrete
proposal-then-reject session. -/
theorem c8_reject_no_dispatch_witness :
    Eff.execCall (executionPrompt crLine)
      ∉ (runTrace cfg0 ⟨.awaitProposal, [], [], []⟩
          [Ev.result (.ok planResp), Ev.input (str " No ")]).2
    ∧ step cfg0 ⟨.awaitInput, crLine, planResp, []⟩ (.input (str "no"))
        = (⟨.finished, crLine, planResp, []⟩, [.stopCancelled]) := by
  have h := c8_reject_no_dispatch cfg0 [Ev.result (.ok planResp), Ev.input (str " No ")]
    ⟨.awaitProposal, [], [], []⟩ ⟨.awaitInput, crLine, planResp, []⟩ ?_ rfl
  · exact ⟨h.1 (executionPrompt crLine), h.2⟩
  · intro u hu
    simp only [List.mem_cons, List.not_mem_nil, or_false] at hu
    rcases hu with h' | h'
    · exact Ev.noConfusion h'
    · injection h' with h''
      subst h''
      decide

/-- Claim C9: extraction and rendering are deterministic and idempotent.
Receiving the same proposal text in any two loop states produces the same
stored plan (extraction depends only on the text, and equals the joined
extracted lines), and rendering is a pure function of the plan: repeated
rendering of an unchanged plan yields identical grouped output, with the
state transition touching no other session data. -/
theorem c9_deterministic_idempotent (cfg : Cfg) (s₁ s₂ : St) (t : List Char)
    (h1 : s₁.pc = .awaitProposal) (h2 : s₂.pc = .awaitProposal) :
    (step cfg s₁ (.result (.ok t))).1.current_plan
      = (step cfg s₂ (.result (.ok t))).1.current_plan
    ∧ (step cfg s₁ (.result (.ok t))).1.current_plan
        = List.intercalate (str "\n") (extractPlanLines t)
    ∧ (∀ p : List Char, displayGroups p = displayGroups p)
    ∧ (∀ r : List Char, extractPlanLines r = extractPlanLines r) := by
  obtain ⟨pc1, cp1, lr1, ep1⟩ := s₁
  obtain ⟨pc2, cp2, lr2, ep2⟩ := s₂
  simp only at h1 h2
  subst h1
  subst h2
  exact ⟨rfl, rfl, fun p => rfl, fun r => rfl⟩

/-- Claim C9, witness for `c9_deterministic_idempotent` at two distinct
concrete states receiving the same proposal. -/
theorem c9_deterministic_idempotent_witness :
    (step cfg0 ⟨.awaitProposal, [], [], []⟩ (.result (.ok planResp))).1.current_plan
      = (step cfg0 ⟨.awaitProposal, crLine, mvLine, hdrLine⟩ (.result (.ok planResp))).1.current_plan
    ∧ displayGroups crLine = displayGroups crLine := by
  have h := c9_deterministic_idempotent cfg0 ⟨.awaitProposal, [], [], []⟩
    ⟨.awaitProposal, crLine, mvLine, hdrLine⟩ planResp rfl rfl
  exact ⟨h.1, h.2.2.1 crLine⟩

/-- Claim C10: operator input is lower-cased and stripped before
classification — approval and rejection are recognized exactly on the
normalized tokens `yes` and `no` (hence case-insensitively), and any other
input is forwarded to the Proposer inside the revision prompt in its
normalized form, so the original casing of feedback is not preserved. -/
theorem c10_input_normalization (cfg : Cfg) (s : St) (u v : List Char)
    (hpc : s.pc = .awaitInput) :
    (classifyInput u = .approve ↔ normalizeInput u = str "yes")
    ∧ (classifyInput u = .reject ↔ normalizeInput u = str "no")
    ∧ (classifyInput u = .feedback v →
        v = normalizeInput u
        ∧ step cfg s (.input u)
            = ({ s with pc := .awaitRevision },
               [.proposerCall (revisionPrompt (normalizeInput u))]))
    ∧ normalizeInput (str "YES") = str "yes"
    ∧ normalizeInput (str "  Keep RAW Files ") = str "keep raw files" := by
  refine ⟨classifyInput_approve_iff u, classifyInput_reject_iff u, ?_, by decide, by decide⟩
  intro hf
  have hv := classifyInput_feedback_eq u v hf
  refine ⟨hv, ?_⟩
  rw [step_feedback cfg s u v hpc hf, hv]

/-- Claim C10, witness for `c10_input_normalization` at a concrete
mixed-case feedback line. -/
theorem c10_input_normalization_witness :
    str "sort by year" = normalizeInput (str " Sort By YEAR ")
    ∧ step cfg0 ⟨.awaitInput, crLine, planResp, []⟩ (.input (str " Sort By YEAR "))
        = (⟨.awaitRevision, crLine, planResp, []⟩,
           [.proposerCall (revisionPrompt (normalizeInput (str " Sort By YEAR ")))]) := by
  have h := c10_input_normalization cfg0 ⟨.awaitInput, crLine, planResp, []⟩
    (str " Sort By YEAR ") (str "sort by year") rfl
  have hf := h.2.2.1 (by decide)
  exact ⟨hf.1, hf.2⟩
